import Mathlib

/-!
Shallow embedding of the `markov-generator` crate
(src/markov-generator/src/markov_chain/*.rs and main.rs).

Machine integers (`u32` ids) are modelled as `Nat`; the node/edge ids are
only compared for equality, never overflowed, so no modular wrap is needed.
Edge weights (`f32`) are modelled as exact rationals `ℚ`: the claims under
study concern the control flow of the weighted-selection loop, not binary
floating-point rounding.  The process-wide RNG of `next` is abstracted by
passing the value `r` that `rng.gen_range(0.0..total_weight)` would return;
`gen_range` on an empty range (`total_weight <= 0`) panics in `rand`, which
the embedding surfaces as an explicit `panicked` outcome.
Rust `&mut self` methods become state-passing functions returning the
result together with the updated chain.
-/

namespace MarkovGen

/-- `serde_json::Value`: a tree of null / bool / number / string / array / map. -/
inductive Json where
  | null : Json
  | bool : Bool → Json
  | num : ℚ → Json
  | str : String → Json
  | arr : List Json → Json
  | obj : List (String × Json) → Json

/-- `Action` (action.rs): an identified opaque structured payload. -/
structure Action where
  id : Nat
  value : Json

/-- `Action::new` (action.rs): absent value defaults to `Value::Null`. -/
def Action.new (id : Nat) (value : Option Json) : Action :=
  { id := id, value := value.getD Json.null }

/-- `Node` (node.rs): an identified vertex owning a list of Actions. -/
structure Node where
  id : Nat
  actions : List Action

/-- `Node::new` (node.rs): absent actions default to the empty list. -/
def Node.new (id : Nat) (actions : Option (List Action)) : Node :=
  { id := id, actions := actions.getD [] }

/-- `Edge` (edge.rs): a directed weighted connection between node ids. -/
structure Edge where
  «from» : Nat
  «to» : Nat
  weight : ℚ
deriving DecidableEq

/-- `Edge::new` (edge.rs): constructs the edge verbatim, no validation. -/
def Edge.new (f t : Nat) (w : ℚ) : Edge :=
  { «from» := f, «to» := t, weight := w }

/-- `MarkovChainError` (markov_chain.rs lines 5-13). -/
inductive MarkovChainError where
  | StuckError
  | NodeDoesNotExistError
  | EdgeDoesNotExistError
  | ActionDoesNotExistError
  | NodeHasNoEdgesError
  | TransitionFailedError
deriving DecidableEq

/-- `MarkovChain` (markov_chain.rs lines 15-20). -/
structure MarkovChain where
  nodes : List Node
  edges : List Edge
  current_node : Option Nat

/-- `MarkovChain::new` (lines 23-29): optional initial sequences, `current_node = None`. -/
def MarkovChain.new (nodes : Option (List Node)) (edges : Option (List Edge)) : MarkovChain :=
  { nodes := nodes.getD [], edges := edges.getD [], current_node := none }

/-- `add_node` (lines 31-33): push onto the node vector. -/
def MarkovChain.add_node (c : MarkovChain) (node : Node) : MarkovChain :=
  { c with nodes := c.nodes ++ [node] }

/-- `add_nodes` (lines 35-37): extend the node vector. -/
def MarkovChain.add_nodes (c : MarkovChain) (ns : List Node) : MarkovChain :=
  { c with nodes := c.nodes ++ ns }

/-- `add_edge` (lines 39-41): push onto the edge vector. -/
def MarkovChain.add_edge (c : MarkovChain) (edge : Edge) : MarkovChain :=
  { c with edges := c.edges ++ [edge] }

/-- `remove_node` (lines 43-45): `retain(|node| node.id != node_id)`. -/
def MarkovChain.remove_node (c : MarkovChain) (node_id : Nat) : MarkovChain :=
  { c with nodes := c.nodes.filter (fun node => node.id != node_id) }

/-- `remove_edge` (lines 47-50): retain edges not matching the (from, to) pair. -/
def MarkovChain.remove_edge (c : MarkovChain) (from_node_id to_node_id : Nat) : MarkovChain :=
  { c with edges :=
      c.edges.filter (fun edge => !(edge.«from» == from_node_id && edge.«to» == to_node_id)) }

/-- `get_node` (lines 52-54): first node with the given id. -/
def MarkovChain.get_node (c : MarkovChain) (node_id : Nat) : Option Node :=
  c.nodes.find? (fun node => node.id == node_id)

/-- `get_edge` (lines 56-60): first edge with the given (from, to) pair. -/
def MarkovChain.get_edge (c : MarkovChain) (from_node_id to_node_id : Nat) : Option Edge :=
  c.edges.find? (fun edge => edge.«from» == from_node_id && edge.«to» == to_node_id)

/-- `node_exists` (lines 111-113). -/
def MarkovChain.node_exists (c : MarkovChain) (node_id : Nat) : Bool :=
  c.nodes.any (fun node => node.id == node_id)

/-- `edge_exists` (lines 115-119). -/
def MarkovChain.edge_exists (c : MarkovChain) (from_node_id to_node_id : Nat) : Bool :=
  c.edges.any (fun edge => edge.«from» == from_node_id && edge.«to» == to_node_id)

/-- `get_node_edges` (lines 96-109): error when the node id is absent,
otherwise the edges with `from == node_id` in stored order. -/
def MarkovChain.get_node_edges (c : MarkovChain) (node_id : Nat) :
    Except MarkovChainError (List Edge) :=
  if !c.node_exists node_id then
    Except.error MarkovChainError.NodeDoesNotExistError
  else
    Except.ok (c.edges.filter (fun edge => edge.«from» == node_id))

/-- `set_current_node` (lines 121-128): mutates only when a node with the id is found. -/
def MarkovChain.set_current_node (c : MarkovChain) (node_id : Nat) :
    Except MarkovChainError Unit × MarkovChain :=
  match c.nodes.find? (fun node => node.id == node_id) with
  | some _ => (Except.ok (), { c with current_node := some node_id })
  | none => (Except.error MarkovChainError.NodeDoesNotExistError, c)

/-- `get_current_node` (lines 130-132). -/
def MarkovChain.get_current_node (c : MarkovChain) : Option Nat :=
  c.current_node

/-- Outcome of one call to `next`: `panicked` models a Rust panic
(`rand`'s `gen_range` panics on an empty range). -/
inductive NextResult where
  | panicked
  | error (e : MarkovChainError)
  | ok
deriving DecidableEq

/-- The selection loop of `next` (lines 157-163): running subtraction,
first edge whose weight exceeds the remaining random value wins. -/
def selectEdge : List Edge → ℚ → Option Edge
  | [], _ => none
  | e :: es, r => if r < e.weight then some e else selectEdge es (r - e.weight)

/-- `next` (lines 134-166), with the drawn random value `r` passed explicitly
in place of `rng.gen_range(0.0..total_weight)`.  The `total_weight <= 0`
branch models the panic of `gen_range` on an empty range. -/
def MarkovChain.next (c : MarkovChain) (r : ℚ) : NextResult × MarkovChain :=
  match c.current_node with
  | none => (NextResult.error MarkovChainError.NodeDoesNotExistError, c)
  | some current_node_id =>
    match c.get_node_edges current_node_id with
    | Except.error _ => (NextResult.error MarkovChainError.NodeHasNoEdgesError, c)
    | Except.ok edges =>
      if edges.isEmpty then
        (NextResult.error MarkovChainError.NodeHasNoEdgesError, c)
      else
        let total_weight := edges.foldl (fun acc e => acc + e.weight) 0
        if total_weight ≤ 0 then
          (NextResult.panicked, c)
        else
          match selectEdge edges r with
          | some e => (NextResult.ok, { c with current_node := some e.«to» })
          | none => (NextResult.error MarkovChainError.TransitionFailedError, c)

/-! ### Helper lemmas -/

theorem node_exists_iff_find?_isSome (c : MarkovChain) (node_id : Nat) :
    c.node_exists node_id = true ↔
      (c.nodes.find? (fun node => node.id == node_id)).isSome := by
  rw [MarkovChain.node_exists, List.any_eq_true, List.find?_isSome]

theorem find?_eq_none_of_not_exists {c : MarkovChain} {node_id : Nat}
    (h : c.node_exists node_id = false) :
    c.nodes.find? (fun node => node.id == node_id) = none := by
  rw [List.find?_eq_none]
  intro x hx hpx
  rw [MarkovChain.node_exists, List.any_eq_false] at h
  exact h x hx hpx

/-! ### Theorems for the claims -/

/-- C5: `set_current_node(id)` succeeds and sets the current position to `id`
when some node with that id exists, and otherwise fails with
`NodeDoesNotExistError` leaving the chain (hence `get_current_node()`)
unchanged. -/
theorem set_current_node_spec (c : MarkovChain) (node_id : Nat) :
    c.set_current_node node_id =
      if c.node_exists node_id then
        (Except.ok (), { c with current_node := some node_id })
      else
        (Except.error MarkovChainError.NodeDoesNotExistError, c) := by
  rw [MarkovChain.set_current_node]
  cases hf : c.nodes.find? (fun node => node.id == node_id) with
  | none =>
      have hex : c.node_exists node_id = false := by
        rcases hex : c.node_exists node_id with _ | _
        · rfl
        · rw [node_exists_iff_find?_isSome, hf] at hex
          exact absurd hex (by simp)
      rw [hex]
      rfl
  | some n =>
      have hex : c.node_exists node_id = true := by
        rw [node_exists_iff_find?_isSome, hf]
        rfl
      rw [hex]
      rfl

/-- C6: when no current position is set, `next()` fails with
`NodeDoesNotExistError` and the chain state is unchanged. -/
theorem next_no_current_node (c : MarkovChain) (r : ℚ)
    (h : c.current_node = none) :
    c.next r = (NextResult.error MarkovChainError.NodeDoesNotExistError, c) := by
  rw [MarkovChain.next, h]

/-- Witness for C6 at the empty chain. -/
theorem next_no_current_node_witness :
    (MarkovChain.new none none).current_node = none ∧
      (MarkovChain.new none none).next 0 =
        (NextResult.error MarkovChainError.NodeDoesNotExistError,
          MarkovChain.new none none) :=
  ⟨rfl, next_no_current_node (MarkovChain.new none none) 0 rfl⟩

/-- C1: when the current position is set to an id no longer present among the
nodes, or the current node has zero outgoing edges, `next()` fails with
`NodeHasNoEdgesError` (the inner `NodeDoesNotExistError` is converted) and the
chain state is unchanged. -/
theorem next_no_edges (c : MarkovChain) (id : Nat) (r : ℚ)
    (hcur : c.current_node = some id)
    (h : c.node_exists id = false ∨
      c.edges.filter (fun edge => edge.«from» == id) = []) :
    c.next r = (NextResult.error MarkovChainError.NodeHasNoEdgesError, c) := by
  rw [MarkovChain.next, hcur]
  rcases h with h | h
  · simp only [MarkovChain.get_node_edges, h]
    rfl
  · simp only [MarkovChain.get_node_edges]
    rcases hex : c.node_exists id with _ | _
    · rfl
    · simp only [Bool.not_true, Bool.false_eq_true, if_false, h]
      rfl

/-- Witness for C1: a chain whose current position references a removed node. -/
theorem next_no_edges_witness :
    (⟨[], [], some 1⟩ : MarkovChain).current_node = some 1 ∧
      ((⟨[], [], some 1⟩ : MarkovChain).node_exists 1 = false ∨
        (⟨[], [], some 1⟩ : MarkovChain).edges.filter
          (fun edge => edge.«from» == 1) = []) ∧
      (⟨[], [], some 1⟩ : MarkovChain).next 0 =
        (NextResult.error MarkovChainError.NodeHasNoEdgesError,
          (⟨[], [], some 1⟩ : MarkovChain)) :=
  ⟨rfl, Or.inl rfl, next_no_edges _ 1 0 rfl (Or.inl rfl)⟩

/-- C3, counterexample: `add_node` appends while `get_node` returns the first
match, so on a chain already holding a distinct node with the same id the
claim fails. -/
theorem add_node_get_node_counterexample :
    ¬ ∀ (c : MarkovChain) (n : Node),
        (c.add_node n).get_node n.id = some n := by
  intro h
  have h1 := h ⟨[⟨1, [⟨5, Json.null⟩]⟩], [], none⟩ ⟨1, []⟩
  have h2 : ((⟨[⟨1, [⟨5, Json.null⟩]⟩], [], none⟩ : MarkovChain).add_node
      ⟨1, []⟩).get_node 1 = some ⟨1, [⟨5, Json.null⟩]⟩ := rfl
  rw [h2] at h1
  simp at h1

/-- C3, amended: after `add_node(n)` on a chain holding no node with id
`n.id`, `get_node(n.id)` returns `n`. -/
theorem add_node_get_node (c : MarkovChain) (n : Node)
    (h : c.node_exists n.id = false) :
    (c.add_node n).get_node n.id = some n := by
  rw [MarkovChain.add_node, MarkovChain.get_node]
  have hnone := find?_eq_none_of_not_exists h
  rw [List.find?_append, hnone, Option.none_or]
  simp [List.find?]

/-- Witness for the amended C3. -/
theorem add_node_get_node_witness :
    (⟨[⟨2, []⟩], [], none⟩ : MarkovChain).node_exists (Node.id ⟨1, []⟩) = false ∧
      ((⟨[⟨2, []⟩], [], none⟩ : MarkovChain).add_node ⟨1, []⟩).get_node
        (Node.id ⟨1, []⟩) = some ⟨1, []⟩ :=
  ⟨rfl, add_node_get_node ⟨[⟨2, []⟩], [], none⟩ ⟨1, []⟩ rfl⟩

/-- C7: `get_node_edges(id)` fails with `NodeDoesNotExistError` when no node
with that id is present, and otherwise returns exactly the edges whose `from`
field equals `id`, in insertion order (an in-order sublist of the edge
sequence, every element of which leaves `id`). -/
theorem get_node_edges_spec (c : MarkovChain) (node_id : Nat) :
    c.get_node_edges node_id =
      (if c.node_exists node_id then
        Except.ok (c.edges.filter (fun edge => edge.«from» == node_id))
      else
        Except.error MarkovChainError.NodeDoesNotExistError) ∧
    ∀ l, c.get_node_edges node_id = Except.ok l →
      l.Sublist c.edges ∧ ∀ e ∈ l, e.«from» = node_id := by
  constructor
  · rw [MarkovChain.get_node_edges]
    rcases hex : c.node_exists node_id with _ | _ <;> rfl
  · intro l hl
    rw [MarkovChain.get_node_edges] at hl
    rcases hex : c.node_exists node_id with _ | _ <;> rw [hex] at hl
    · exact absurd hl (by simp)
    · simp only [Bool.not_true, Bool.false_eq_true, if_false, Except.ok.injEq] at hl
      subst hl
      refine ⟨List.filter_sublist _, fun e he => ?_⟩
      have := (List.mem_filter.mp he).2
      simpa using this

/-- Witness for C7, extracting the ok-case consequences on a concrete chain. -/
theorem get_node_edges_witness :
    ((⟨[⟨1, []⟩], [⟨1, 2, 1⟩, ⟨3, 4, 1⟩], none⟩ : MarkovChain).get_node_edges 1 =
        Except.ok [⟨1, 2, 1⟩]) ∧
      ([⟨1, 2, 1⟩] : List Edge).Sublist [⟨1, 2, 1⟩, ⟨3, 4, 1⟩] ∧
      ∀ e ∈ ([⟨1, 2, 1⟩] : List Edge), e.«from» = 1 :=
  ⟨rfl, (get_node_edges_spec ⟨[⟨1, []⟩], [⟨1, 2, 1⟩, ⟨3, 4, 1⟩], none⟩ 1).2
    [⟨1, 2, 1⟩] rfl⟩

/-- C8: `remove_node(id)` removes exactly the nodes with matching id (so a
subsequent `get_node(id)` finds nothing, and it is a no-op when no node
matches) while leaving the edge sequence and the current position unchanged. -/
theorem remove_node_spec (c : MarkovChain) (node_id : Nat) :
    (c.remove_node node_id).edges = c.edges ∧
    (c.remove_node node_id).current_node = c.current_node ∧
    (c.remove_node node_id).nodes =
      c.nodes.filter (fun node => node.id != node_id) ∧
    (c.remove_node node_id).get_node node_id = none ∧
    (c.node_exists node_id = false → c.remove_node node_id = c) := by
  refine ⟨rfl, rfl, rfl, ?_, ?_⟩
  · rw [MarkovChain.get_node, List.find?_eq_none]
    intro x hx hpx
    have := (List.mem_filter.mp hx).2
    rw [bne_iff_ne] at this
    exact this (by simpa using hpx)
  · intro h
    rw [MarkovChain.node_exists, List.any_eq_false] at h
    have hfilter : c.nodes.filter (fun node => node.id != node_id) = c.nodes := by
      rw [List.filter_eq_self]
      intro x hx
      rw [bne_iff_ne]
      intro hcontra
      exact h x hx (by simpa using hcontra)
    cases c
    simp only [MarkovChain.remove_node] at *
    rw [hfilter]

/-- Witness for C8 at a chain with no matching node. -/
theorem remove_node_witness :
    (⟨[⟨2, []⟩], [], none⟩ : MarkovChain).node_exists 1 = false ∧
      (⟨[⟨2, []⟩], [], none⟩ : MarkovChain).remove_node 1 =
        ⟨[⟨2, []⟩], [], none⟩ :=
  ⟨rfl, (remove_node_spec ⟨[⟨2, []⟩], [], none⟩ 1).2.2.2.2 rfl⟩

/-- C2: the code does NOT return a value on every documented input: with a
current node whose outgoing edges all have weight `0.0`, `total_weight` is
`0.0` and `rng.gen_range(0.0..0.0)` panics on the empty range.  This theorem
evaluates the embedding at that failing input. -/
theorem next_zero_weight_panics :
    ((⟨[⟨1, []⟩], [⟨1, 1, 0⟩], some 1⟩ : MarkovChain).next 0).1 =
      NextResult.panicked := by
  norm_num [MarkovChain.next, MarkovChain.get_node_edges, MarkovChain.node_exists]

theorem foldl_add_weight (es : List Edge) (a : ℚ) :
    es.foldl (fun acc e => acc + e.weight) a = a + (es.map Edge.weight).sum := by
  induction es generalizing a with
  | nil => simp
  | cons e tl ih => simp [List.foldl_cons, ih, add_assoc]

theorem selectEdge_eq_none_of_cum_le (es : List Edge) (r : ℚ)
    (h : ∀ i, i < es.length → ((es.take (i + 1)).map Edge.weight).sum ≤ r) :
    selectEdge es r = none := by
  induction es generalizing r with
  | nil => rfl
  | cons e tl ih =>
      have h0 : e.weight ≤ r := by simpa using h 0 (by simp)
      rw [selectEdge, if_neg (not_lt.mpr h0)]
      apply ih
      intro i hi
      have := h (i + 1) (by simpa using hi)
      simp only [List.take_succ_cons, List.map_cons, List.sum_cons] at this
      linarith

theorem selectEdge_first_crossing (es : List Edge) (r : ℚ)
    (h0 : 0 ≤ r) (hlt : r < (es.map Edge.weight).sum) :
    ∃ i, ∃ hi : i < es.length,
      (∀ j, j < i → ((es.take (j + 1)).map Edge.weight).sum ≤ r) ∧
      r < ((es.take (i + 1)).map Edge.weight).sum ∧
      selectEdge es r = some (es.get ⟨i, hi⟩) := by
  induction es generalizing r with
  | nil =>
      simp only [List.map_nil, List.sum_nil] at hlt
      exact absurd (lt_of_le_of_lt h0 hlt) (lt_irrefl 0)
  | cons e tl ih =>
      by_cases hc : r < e.weight
      · refine ⟨0, by simp, fun j hj => absurd hj (Nat.not_lt_zero j), ?_, ?_⟩
        · simpa using hc
        · rw [selectEdge, if_pos hc]
          rfl
      · push_neg at hc
        have h0' : 0 ≤ r - e.weight := by linarith
        have hlt' : r - e.weight < (tl.map Edge.weight).sum := by
          simp only [List.map_cons, List.sum_cons] at hlt
          linarith
        obtain ⟨i, hi, hbefore, hcross, hsel⟩ := ih (r - e.weight) h0' hlt'
        refine ⟨i + 1, by simpa using hi, ?_, ?_, ?_⟩
        · intro j hj
          rcases j with _ | j'
          · simpa using hc
          · have := hbefore j' (by omega)
            simp only [List.take_succ_cons, List.map_cons, List.sum_cons]
            linarith
        · simp only [List.take_succ_cons, List.map_cons, List.sum_cons]
          linarith
        · rw [selectEdge, if_neg (not_lt.mpr hc), hsel]
          rfl

theorem selectEdge_mem {es : List Edge} {r : ℚ} {e : Edge}
    (h : selectEdge es r = some e) : e ∈ es := by
  induction es generalizing r with
  | nil => exact absurd h (by simp [selectEdge])
  | cons e' tl ih =>
      rw [selectEdge] at h
      by_cases hc : r < e'.weight
      · rw [if_pos hc, Option.some.injEq] at h
        exact h ▸ List.mem_cons_self e' tl
      · rw [if_neg hc] at h
        exact List.mem_cons_of_mem e' (ih h)

/-- C4: with a non-empty outgoing edge list `es` of the current node and a
drawn value `r` in `[0, total_weight)`, `next()` walks `es` in stored order by
running subtraction and moves to the destination of the first edge whose
cumulative weight exceeds `r`; and whenever no edge's cumulative weight
exceeds `r` (no edge is selected by the end of the loop), it fails with
`TransitionFailedError`. -/
theorem next_weighted_transition (c : MarkovChain) (id : Nat)
    (es : List Edge) (r : ℚ)
    (hcur : c.current_node = some id)
    (hes : c.get_node_edges id = Except.ok es)
    (hne : es ≠ [])
    (h0 : 0 ≤ r)
    (htw : 0 < (es.map Edge.weight).sum) :
    (r < (es.map Edge.weight).sum →
      ∃ i, ∃ hi : i < es.length,
        (∀ j, j < i → ((es.take (j + 1)).map Edge.weight).sum ≤ r) ∧
        r < ((es.take (i + 1)).map Edge.weight).sum ∧
        c.next r = (NextResult.ok,
          { c with current_node := some ((es.get ⟨i, hi⟩).«to») })) ∧
    ((∀ i, i < es.length → ((es.take (i + 1)).map Edge.weight).sum ≤ r) →
      c.next r = (NextResult.error MarkovChainError.TransitionFailedError, c)) := by
  have hemp : es.isEmpty = false := by
    rcases es with _ | ⟨e, tl⟩
    · exact absurd rfl hne
    · rfl
  have hnext : c.next r =
      (match selectEdge es r with
        | some e => (NextResult.ok, { c with current_node := some e.«to» })
        | none => (NextResult.error MarkovChainError.TransitionFailedError, c)) := by
    rw [MarkovChain.next, hcur]
    simp only [hes, hemp, Bool.false_eq_true, if_false, foldl_add_weight, zero_add,
      if_neg (not_le.mpr htw)]
  constructor
  · intro hr
    obtain ⟨i, hi, hbefore, hcross, hsel⟩ := selectEdge_first_crossing es r h0 hr
    refine ⟨i, hi, hbefore, hcross, ?_⟩
    rw [hnext, hsel]
  · intro hall
    rw [hnext, selectEdge_eq_none_of_cum_le es r hall]

/-- Witness for C4 on a one-edge chain with `r = 0`. -/
theorem next_weighted_transition_witness :
    (⟨[⟨1, []⟩], [⟨1, 2, 1⟩], some 1⟩ : MarkovChain).current_node = some 1 ∧
    (⟨[⟨1, []⟩], [⟨1, 2, 1⟩], some 1⟩ : MarkovChain).get_node_edges 1 =
      Except.ok [⟨1, 2, 1⟩] ∧
    ([⟨1, 2, 1⟩] : List Edge) ≠ [] ∧
    (0 : ℚ) ≤ 0 ∧
    (0 : ℚ) < (([⟨1, 2, 1⟩] : List Edge).map Edge.weight).sum ∧
    ((0 : ℚ) < (([⟨1, 2, 1⟩] : List Edge).map Edge.weight).sum →
      ∃ i, ∃ hi : i < ([⟨1, 2, 1⟩] : List Edge).length,
        (∀ j, j < i →
          ((([⟨1, 2, 1⟩] : List Edge).take (j + 1)).map Edge.weight).sum ≤ 0) ∧
        (0 : ℚ) < ((([⟨1, 2, 1⟩] : List Edge).take (i + 1)).map Edge.weight).sum ∧
        (⟨[⟨1, []⟩], [⟨1, 2, 1⟩], some 1⟩ : MarkovChain).next 0 =
          (NextResult.ok, { (⟨[⟨1, []⟩], [⟨1, 2, 1⟩], some 1⟩ : MarkovChain) with
            current_node := some ((([⟨1, 2, 1⟩] : List Edge).get ⟨i, hi⟩).«to») })) :=
  ⟨rfl, rfl, by simp, le_refl 0, by norm_num,
    fun _ => (next_weighted_transition ⟨[⟨1, []⟩], [⟨1, 2, 1⟩], some 1⟩ 1
      [⟨1, 2, 1⟩] 0 rfl rfl (by simp) (le_refl 0) (by norm_num)).1 (by norm_num)⟩

/-- C10: a successful `next()` moves the current position to the `to` field of
some stored edge leaving the previous current position; the destination is
never checked to exist among the nodes, witnessed by a concrete chain where a
successful `next()` leaves the current position at an id absent from the node
sequence. -/
theorem next_ok_destination :
    (∀ (c c' : MarkovChain) (r : ℚ) (id : Nat),
      c.current_node = some id →
      c.next r = (NextResult.ok, c') →
      ∃ e ∈ c.edges, e.«from» = id ∧ c'.current_node = some e.«to») ∧
    (∃ (c c' : MarkovChain) (r : ℚ),
      c.next r = (NextResult.ok, c') ∧
      ∃ id2, c'.current_node = some id2 ∧ c.node_exists id2 = false) := by
  constructor
  · intro c c' r id hcur h
    rw [MarkovChain.next, hcur] at h
    rcases hge : c.get_node_edges id with e | edges <;> simp only [hge] at h
    · exact absurd h (by simp)
    · rcases edges with _ | ⟨e0, tl⟩
      · exact absurd h (by simp)
      · simp only [List.isEmpty_cons, Bool.false_eq_true, if_false] at h
        split at h
        · exact absurd h (by simp)
        · rcases hsel : selectEdge (e0 :: tl) r with _ | e <;>
            simp only [hsel] at h
          · exact absurd h (by simp)
          · rw [Prod.mk.injEq] at h
            have hc' := h.2
            have hmem : e ∈ e0 :: tl := selectEdge_mem hsel
            rw [MarkovChain.get_node_edges] at hge
            rcases hex : c.node_exists id with _ | _ <;> simp only [hex] at hge
            · exact absurd hge (by simp)
            · simp only [Bool.not_true, Bool.false_eq_true, if_false,
                Except.ok.injEq] at hge
              rw [← hge] at hmem
              have hmem' := List.mem_filter.mp hmem
              exact ⟨e, hmem'.1, by simpa using hmem'.2, by rw [← hc']⟩
  · refine ⟨⟨[⟨1, []⟩], [⟨1, 2, 1⟩], some 1⟩, ⟨[⟨1, []⟩], [⟨1, 2, 1⟩], some 2⟩,
      0, ?_, 2, rfl, rfl⟩
    norm_num [MarkovChain.next, MarkovChain.get_node_edges,
      MarkovChain.node_exists, selectEdge]

/-- Witness for C10, applying the universal part on a concrete successful
transition. -/
theorem next_ok_destination_witness :
    (⟨[⟨1, []⟩], [⟨1, 2, 1⟩], some 1⟩ : MarkovChain).current_node = some 1 ∧
    (⟨[⟨1, []⟩], [⟨1, 2, 1⟩], some 1⟩ : MarkovChain).next 0 =
      (NextResult.ok, (⟨[⟨1, []⟩], [⟨1, 2, 1⟩], some 2⟩ : MarkovChain)) ∧
    ∃ e ∈ (⟨[⟨1, []⟩], [⟨1, 2, 1⟩], some 1⟩ : MarkovChain).edges,
      e.«from» = 1 ∧
      (⟨[⟨1, []⟩], [⟨1, 2, 1⟩], some 2⟩ : MarkovChain).current_node =
        some e.«to» := by
  have hrun : (⟨[⟨1, []⟩], [⟨1, 2, 1⟩], some 1⟩ : MarkovChain).next 0 =
      (NextResult.ok, (⟨[⟨1, []⟩], [⟨1, 2, 1⟩], some 2⟩ : MarkovChain)) := by
    norm_num [MarkovChain.next, MarkovChain.get_node_edges,
      MarkovChain.node_exists, selectEdge]
  exact ⟨rfl, hrun, next_ok_destination.1 _ _ 0 1 rfl hrun⟩

/-! ### Serialization (claim C9)

Modelled from the spec: the serde-derived `Serialize`/`Deserialize`
implementations for `Node`, `Edge` and `Action` are generated by the derive
macros and are not code under src/; §6 of the spec fixes the serialized field
layout (`{"id", "actions"}` for nodes, `{"from", "to", "weight"}` for edges,
`{"id", "value"}` for actions, an action value being any structured value). -/

/-- Modelled from the spec: deserializing a `uint32` field from a structured
number. -/
def natOfJson : Json → Option Nat
  | Json.num q => if q.den = 1 ∧ 0 ≤ q.num then some q.num.toNat else none
  | _ => none

/-- Modelled from the spec: deserializing a float field from a structured
number. -/
def ratOfJson : Json → Option ℚ
  | Json.num q => some q
  | _ => none

/-- Modelled from the spec: `Action` serializes to `{ "id": <uint32>,
"value": <any> }`. -/
def Action.toJson (a : Action) : Json :=
  Json.obj [("id", Json.num a.id), ("value", a.value)]

/-- Modelled from the spec: `Action` deserializes from the shape produced by
`Action.toJson`. -/
def Action.fromJson : Json → Option Action
  | Json.obj [("id", jid), ("value", v)] =>
      (natOfJson jid).map (fun i => { id := i, value := v })
  | _ => none

/-- Modelled from the spec: `Edge` serializes to `{ "from": <uint32>,
"to": <uint32>, "weight": <float32> }`. -/
def Edge.toJson (e : Edge) : Json :=
  Json.obj [("from", Json.num e.«from»), ("to", Json.num e.«to»),
    ("weight", Json.num e.weight)]

/-- Modelled from the spec: `Edge` deserializes from the shape produced by
`Edge.toJson`. -/
def Edge.fromJson : Json → Option Edge
  | Json.obj [("from", jf), ("to", jt), ("weight", jw)] => do
      let f ← natOfJson jf
      let t ← natOfJson jt
      let w ← ratOfJson jw
      pure { «from» := f, «to» := t, weight := w }
  | _ => none

/-- Modelled from the spec: an action list serializes elementwise and
deserializes elementwise. -/
def actionsFromJson : List Json → Option (List Action)
  | [] => some []
  | j :: js => do
      let a ← Action.fromJson j
      let tl ← actionsFromJson js
      pure (a :: tl)

/-- Modelled from the spec: `Node` serializes to `{ "id": <uint32>,
"actions": [...] }`. -/
def Node.toJson (n : Node) : Json :=
  Json.obj [("id", Json.num n.id), ("actions", Json.arr (n.actions.map Action.toJson))]

/-- Modelled from the spec: `Node` deserializes from the shape produced by
`Node.toJson`. -/
def Node.fromJson : Json → Option Node
  | Json.obj [("id", jid), ("actions", Json.arr js)] => do
      let i ← natOfJson jid
      let acts ← actionsFromJson js
      pure { id := i, actions := acts }
  | _ => none

theorem natOfJson_natCast (n : Nat) : natOfJson (Json.num (n : ℚ)) = some n := by
  rw [natOfJson, if_pos]
  · rw [Option.some.injEq, Rat.num_natCast, Int.toNat_natCast]
  · exact ⟨Rat.den_natCast n, by rw [Rat.num_natCast]; exact Int.natCast_nonneg n⟩

theorem action_roundtrip (a : Action) : Action.fromJson a.toJson = some a := by
  rw [Action.toJson, Action.fromJson, natOfJson_natCast]
  rfl

theorem actions_roundtrip (l : List Action) :
    actionsFromJson (l.map Action.toJson) = some l := by
  induction l with
  | nil => rfl
  | cons a tl ih =>
      rw [List.map_cons, actionsFromJson]
      rw [action_roundtrip, ih]
      rfl

/-- C9: round-tripping every constructed Action (with any structured value),
Node, and Edge through the serialized form of §6 reproduces an equal value. -/
theorem serialization_roundtrip :
    (∀ a : Action, Action.fromJson a.toJson = some a) ∧
    (∀ n : Node, Node.fromJson n.toJson = some n) ∧
    (∀ e : Edge, Edge.fromJson e.toJson = some e) := by
  refine ⟨action_roundtrip, fun n => ?_, fun e => ?_⟩
  · rw [Node.toJson, Node.fromJson, natOfJson_natCast, actions_roundtrip]
    rfl
  · rw [Edge.toJson, Edge.fromJson, natOfJson_natCast, natOfJson_natCast]
    rfl

end MarkovGen
